import Mathlib

/-!
Verification of the environment-resolution and schema-validation core of the
mci-uvx repository (src/mci/utils/dotenv.py, src/mci/core/validator.py,
src/mci/core/config.py), as a shallow embedding.

Python dictionaries are represented as association lists in write order;
a lookup takes the value of the last write (`envGet`), matching dict
assignment/update semantics, and a dict is truthy iff the list of writes is
nonempty.  File-system and process state (file contents, the live process
environment, `shutil.which`, `Path.exists`) enter as explicit parameters.
-/

/-- Python dict of str to str, as the list of writes (last write wins). -/
abbrev EnvMap := List (String × String)

/-- Dict lookup: the value of the last write of `key`, if any. -/
def envGet (d : EnvMap) (key : String) : Option String :=
  d.foldl (fun acc kv => if kv.1 = key then some kv.2 else acc) none

/-- Python `d.update(other)`: every entry of `other` is written on top of `d`. -/
def dictUpdate (d other : EnvMap) : EnvMap := d ++ other

/-- The apostrophe character (single quote), written via its code point. -/
def apos : Char := Char.ofNat 39

/-- The double-quote character. -/
def dq : Char := '"'

/-- Characters matched by the `\s` class of the CPython `re` module and
stripped by `str.strip()` (ASCII range). -/
def isPySpace (c : Char) : Bool :=
  c = ' ' || c = '\t' || c = '\n' || c = '\r' || c = '\x0b' || c = '\x0c'

/-- Python `str.strip()`: remove leading and trailing whitespace. -/
def pyStrip (s : String) : String :=
  String.mk (((s.data.dropWhile isPySpace).reverse.dropWhile isPySpace).reverse)

/-- First character of the key pattern `[A-Za-z_]`. -/
def isIdentStart (c : Char) : Bool := c.isAlpha || c = '_'

/-- Continuation characters of the key pattern `[A-Za-z0-9_]`. -/
def isIdentChar (c : Char) : Bool := c.isAlpha || c.isDigit || c = '_'

/-- The regular expression match
`^([A-Za-z_][A-Za-z0-9_]*)\s*=\s*(.*)$` of dotenv.py line 67, returning the
two capture groups.  The identifier class is disjoint from whitespace and
`=`, so the greedy sub-matches need no backtracking. -/
def matchKV (line : String) : Option (String × String) :=
  match line.data with
  | [] => none
  | c :: cs =>
    if isIdentStart c then
      match (cs.dropWhile isIdentChar).dropWhile isPySpace with
      | '=' :: rest =>
          some (String.mk (c :: cs.takeWhile isIdentChar),
                String.mk (rest.dropWhile isPySpace))
      | _ => none
    else none

/-- Quote removal of dotenv.py lines 72-77: strip one outer pair of matching
double or single quotes from a value of length at least two. -/
def stripQuotes (v : String) : String :=
  if 2 ≤ v.length then
    if v.data.head? = some dq && v.data.getLast? = some dq then
      String.mk ((v.data.drop 1).dropLast)
    else if v.data.head? = some apos && v.data.getLast? = some apos then
      String.mk ((v.data.drop 1).dropLast)
    else v
  else v

/-- Python `line.startswith("export ")`. -/
def hasExportKeyword (line : String) : Bool :=
  line.data.take 7 = "export ".data

/-- The processing of one line of a dotenv file (dotenv.py lines 54-81):
strip, skip blanks and comments, drop an `export ` marker, match the
KEY=VALUE pattern, and strip quotes.  `none` means the line writes nothing. -/
def lineAssign (raw : String) : Option (String × String) :=
  let line := pyStrip raw
  if line.length = 0 || line.data.head? = some '#' then none
  else
    let line := if hasExportKeyword line then pyStrip (String.mk (line.data.drop 7)) else line
    match matchKV line with
    | some kv => some (kv.1, stripQuotes kv.2)
    | none => none

/-- One step of the parsing loop: a matching line writes `key = value`
into the accumulated dict. -/
def processLine (acc : EnvMap) (raw : String) : EnvMap :=
  match lineAssign raw with
  | some kv => acc ++ [kv]
  | none => acc

/-- Observable states of a candidate dotenv file.  `failMidRead ls` models a
read that raises OSError or UnicodeDecodeError after the lines `ls` were
already yielded by the file iterator (the decode error of a UTF-8 text
stream surfaces at the chunk that contains the offending byte, so earlier
lines of earlier chunks have been consumed by then); `failAtOpen` models `open`
itself failing, or a failure before any line is yielded. -/
inductive FileState where
  | absent
  | readable (lines : List String)
  | failAtOpen
  | failMidRead (linesRead : List String)

/-- Result of `Path.exists()` for a candidate file. -/
def FileState.pathExists : FileState → Bool
  | .absent => false
  | _ => true

/-- dotenv.py `parse_dotenv_file`: missing file yields the empty dict; the
whole loop is inside `try`, and on OSError or UnicodeDecodeError the
accumulated (possibly partial) dict is returned. -/
def parse_dotenv_file : FileState → EnvMap
  | .absent => []
  | .failAtOpen => []
  | .readable ls => ls.foldl processLine []
  | .failMidRead ls => ls.foldl processLine []

/-- The four candidate dotenv files of a project root. -/
structure ProjectFiles where
  mciEnv : FileState
  mciEnvMci : FileState
  rootEnv : FileState
  rootEnvMci : FileState

/-- dotenv.py `find_and_merge_dotenv_files`: merge the four candidates in
fixed order, lowest precedence first (mci/.env, mci/.env.mci, .env,
.env.mci), each guarded by an existence check. -/
def find_and_merge_dotenv_files (fs : ProjectFiles) : EnvMap :=
  let merged : EnvMap := []
  let merged := if fs.mciEnv.pathExists then dictUpdate merged (parse_dotenv_file fs.mciEnv) else merged
  let merged := if fs.mciEnvMci.pathExists then dictUpdate merged (parse_dotenv_file fs.mciEnvMci) else merged
  let merged := if fs.rootEnv.pathExists then dictUpdate merged (parse_dotenv_file fs.rootEnv) else merged
  if fs.rootEnvMci.pathExists then dictUpdate merged (parse_dotenv_file fs.rootEnvMci) else merged

/-- dotenv.py `get_env_with_dotenv`: files, then the live process
environment on top, then the caller-supplied `additional_env` last, the
latter only when it is truthy (not None and nonempty). -/
def get_env_with_dotenv (fs : ProjectFiles) (processEnv : EnvMap)
    (additionalEnv : Option EnvMap) : EnvMap :=
  let merged := dictUpdate (find_and_merge_dotenv_files fs) processEnv
  match additionalEnv with
  | none => merged
  | some extra => if extra.isEmpty then merged else dictUpdate merged extra

/-- Modelled from the spec: `ValidationError` of mci/utils/error_formatter.py
(the module itself is not in the source tree; its dataclass shape
`{message, optional location}` is given by the data model of the spec and
exercised by tests/unit/utils/test_error_formatter.py). -/
structure ValidationError where
  message : String
  location : Option String := none
deriving DecidableEq, Repr

/-- Modelled from the spec: `ValidationWarning` of
mci/utils/error_formatter.py, shape `{message, optional suggestion}`. -/
structure ValidationWarning where
  message : String
  suggestion : Option String := none
deriving DecidableEq, Repr

/-- validator.py `ValidationResult`. -/
structure ValidationResult where
  errors : List ValidationError
  warnings : List ValidationWarning
  is_valid : Bool
deriving DecidableEq, Repr

/-- Loosely typed document tree as produced by `json.load` / `yaml.safe_load`
(`vnull` also stands for Python `None`).  Dicts are association lists of
string-keyed fields, assumed key-distinct as Python dicts are. -/
inductive JVal where
  | vnull
  | vbool (b : Bool)
  | vint (n : Int)
  | vstr (s : String)
  | vlist (xs : List JVal)
  | vdict (fields : List (String × JVal))

/-- Python truthiness of a document value. -/
def truthy : JVal → Bool
  | .vnull => false
  | .vbool b => b
  | .vint n => n != 0
  | .vstr s => !s.isEmpty
  | .vlist xs => !xs.isEmpty
  | .vdict fs => !fs.isEmpty

/-- Dict field lookup (`d.get(key)` returning None when absent). -/
def jGet (d : List (String × JVal)) (key : String) : Option JVal :=
  d.foldl (fun acc kv => if kv.1 = key then some kv.2 else acc) none

/-- Split a character list at every occurrence of `sep` (the pieces, in
order, with separators removed; `str.split(sep)` semantics). -/
def splitOnChar (sep : Char) : List Char → List (List Char)
  | [] => [[]]
  | c :: cs =>
    let r := splitOnChar sep cs
    if c = sep then [] :: r
    else match r with
    | [] => [[c]]
    | h :: t => (c :: h) :: t

/-- Join character lists with `sep` between consecutive pieces. -/
def joinWithChar (sep : Char) : List (List Char) → List Char
  | [] => []
  | [x] => x
  | x :: xs => x ++ sep :: joinWithChar sep xs

/-- Python `pathlib.Path(p).parent` rendered as a string, for plain paths without
trailing separators: everything before the last slash, or `.` if none. -/
def parentDir (p : String) : String :=
  let parts := splitOnChar '/' p.data
  if parts.length ≤ 1 then "." else String.mk (joinWithChar '/' parts.dropLast)

/-- Index of the last `.` of the name, if any (`str.rfind`). -/
def rfindDot (cs : List Char) : Option Nat :=
  match cs.reverse.findIdx? (fun c => c = '.') with
  | none => none
  | some j => some (cs.length - 1 - j)

/-- Python `pathlib.Path(p).suffix`: the extension of the final path component,
empty for dotless names, leading-dot names and names ending in a dot. -/
def pySuffix (p : String) : String :=
  let name := (splitOnChar '/' p.data).getLastD []
  match rfindDot name with
  | some i => if 0 < i && i < name.length - 1 then String.mk (name.drop i) else ""
  | none => ""

/-- Python exceptions that can escape the supplementary checks:
`AttributeError` from calling `.get` on a non-dict loaded document, and
`TypeError` from `shutil.which` applied to a non-string command value. -/
inductive PyErr where
  | attrError
  | typeError
deriving DecidableEq, Repr

/-- Outcome of constructing `mcipy.MCIClient(schema_file_path, env_vars)`,
the external schema engine (an oracle: the engine is outside this
repository). -/
inductive EngineOutcome where
  | success
  | clientError (msg : String)
  | fileNotFound (path : String)
  | otherError (msg : String)

/-- config.py `MCIConfig.validate_schema`: returns `(is_valid, error_message)`,
with the `MCIClientError` message passed through verbatim and the two
fallback exception classes reformatted. -/
def MCIConfig.validate_schema (engine : EngineOutcome) : Bool × String :=
  match engine with
  | .success => (true, "")
  | .clientError msg => (false, msg)
  | .fileNotFound path => (false, "File not found: " ++ path)
  | .otherError msg => (false, "Unexpected error: " ++ msg)

/-- The document file as seen by the supplementary reload: whether the path
exists, and the outcome `json.load` respectively `yaml.safe_load` would
produce on its content (each error string is the `str(e)` of the exception). -/
structure DocFile where
  docExists : Bool
  jsonLoad : Except String JVal
  yamlLoad : Except String JVal

/-- validator.py `MCIValidator._load_schema_data`: existence check first,
then dispatch on the file suffix; any suffix other than `.json`, `.yaml`,
`.yml` raises `ValueError("Unsupported file format: ...")`. -/
def MCIValidator.load_schema_data (doc : DocFile) (file_path : String) : Except String JVal :=
  if doc.docExists = false then .error ("Schema file not found: " ++ file_path)
  else if pySuffix file_path = ".json" then doc.jsonLoad
  else if pySuffix file_path = ".yaml" || pySuffix file_path = ".yml" then doc.yamlLoad
  else .error ("Unsupported file format: " ++ pySuffix file_path)

/-- The loop body of `check_toolset_files` for one element of `toolsets`:
a string element warns when neither co-located candidate file exists;
other element shapes are not checked. -/
def toolsetWarning (fexists : String → Bool) (mciDir : String) : JVal → Option ValidationWarning
  | .vstr name =>
    let tjson := mciDir ++ "/" ++ name ++ ".mci.json"
    let tyaml := mciDir ++ "/" ++ name ++ ".mci.yaml"
    if fexists tjson || fexists tyaml then none
    else some { message := "Toolset file not found: " ++ name
              , suggestion := some ("Create " ++ tjson ++ " or " ++ tyaml
                  ++ ", or update the toolset reference") }
  | _ => none

/-- validator.py `MCIValidator.check_toolset_files`.  `fexists` is
`Path.exists` on the candidate toolset paths.  A truthy non-dict loaded
document makes `self.schema_data.get` raise `AttributeError`. -/
def MCIValidator.check_toolset_files (fexists : String → Bool) (file_path : String)
    (schema_data : JVal) : Except PyErr (List ValidationWarning) :=
  if truthy schema_data = false then .ok []
  else match schema_data with
  | .vdict d =>
    let toolsets := (jGet d "toolsets").getD (.vlist [])
    if truthy toolsets = false then .ok []
    else match toolsets with
    | .vlist items => .ok (items.filterMap (toolsetWarning fexists (parentDir file_path ++ "/mci")))
    | _ => .ok []
  | _ => .error .attrError

/-- The loop body of `check_mcp_commands` for one `(server_name, config)`
item: a dict config with a truthy `command` looks the command up on PATH
(`which`, the truth value of `shutil.which`); `shutil.which` applied to a
truthy non-string raises `TypeError`. -/
def mcpEntryWarnings (which : String → Bool) (serverName : String) :
    JVal → Except PyErr (List ValidationWarning)
  | .vdict cfg =>
    match jGet cfg "command" with
    | none => .ok []
    | some cmd =>
      if truthy cmd then
        match cmd with
        | .vstr c =>
          if which c then .ok []
          else .ok [{ message := "MCP server command not found in PATH: " ++ c
                        ++ " (server: " ++ serverName ++ ")"
                    , suggestion := some ("Install the command or ensure it"
                        ++ String.singleton apos ++ "s in your PATH") }]
        | _ => .error .typeError
      else .ok []
  | _ => .ok []

/-- One iteration of the `check_mcp_commands` loop: append the warnings of
this item to the accumulated list; an exception raised by an earlier or the
current iteration aborts the loop. -/
def mcpFoldStep (which : String → Bool) (acc : Except PyErr (List ValidationWarning))
    (kv : String × JVal) : Except PyErr (List ValidationWarning) :=
  match acc with
  | .error e => .error e
  | .ok ws =>
    match mcpEntryWarnings which kv.1 kv.2 with
    | .error e => .error e
    | .ok more => .ok (ws ++ more)

/-- validator.py `MCIValidator.check_mcp_commands`. -/
def MCIValidator.check_mcp_commands (which : String → Bool)
    (schema_data : JVal) : Except PyErr (List ValidationWarning) :=
  if truthy schema_data = false then .ok []
  else match schema_data with
  | .vdict d =>
    let mcp_servers := (jGet d "mcp_servers").getD (.vdict [])
    if truthy mcp_servers = false then .ok []
    else match mcp_servers with
    | .vdict servers => servers.foldl (mcpFoldStep which) (.ok [])
    | _ => .ok []
  | _ => .error .attrError

/-- The world a validation run observes: the verdict of the external engine, the
document file, and the two file-system probes of the supplementary checks. -/
structure WorldState where
  engine : EngineOutcome
  doc : DocFile
  toolsetFileOnDisk : String → Bool
  which : String → Bool

/-- validator.py `MCIValidator.validate_schema`: primary validation via
`MCIConfig.validate_schema`, then the guarded reload, then the two
supplementary checks (which run outside any `try`, so their exceptions
propagate to the caller — hence the `Except PyErr` result). -/
def MCIValidator.validate_schema (w : WorldState) (file_path : String) :
    Except PyErr ValidationResult :=
  let pr := MCIConfig.validate_schema w.engine
  if pr.1 = false then
    .ok { errors := [{ message := pr.2 }], warnings := [], is_valid := false }
  else
    match MCIValidator.load_schema_data w.doc file_path with
    | .error msg =>
      .ok { errors := [{ message := "Failed to load schema data: " ++ msg }]
          , warnings := [], is_valid := false }
    | .ok sd =>
      match MCIValidator.check_toolset_files w.toolsetFileOnDisk file_path sd with
      | .error e => .error e
      | .ok ws1 =>
        match MCIValidator.check_mcp_commands w.which sd with
        | .error e => .error e
        | .ok ws2 => .ok { errors := [], warnings := ws1 ++ ws2, is_valid := true }

/-- A raw line a dotenv parse either skips (blank or comment) or accepts as
an assignment: no line falls into the silently-skipped malformed bucket. -/
def wellFormedLine (raw : String) : Bool :=
  let line := pyStrip raw
  line.length = 0 || line.data.head? = some '#' ||
    (matchKV (if hasExportKeyword line then pyStrip (String.mk (line.data.drop 7)) else line)).isSome

/-- An mcp server config value whose `command` field, when truthy, is a
string — the shapes on which `shutil.which` is never applied to a
non-string. -/
def commandSafe : JVal → Bool
  | .vdict cfg =>
    (match jGet cfg "command" with
     | some c => !truthy c || (match c with | .vstr _ => true | _ => false)
     | none => true)
  | _ => true

/-- A loaded document shape on which the supplementary checks raise no
exception: a mapping all of whose mcp server entries are `commandSafe`,
or any falsy value. -/
def docShapeSafe : JVal → Bool
  | .vdict d =>
    (match (jGet d "mcp_servers").getD (.vdict []) with
     | .vdict servers => servers.all (fun kv => commandSafe kv.2)
     | _ => true)
  | sd => !truthy sd

theorem envGet_foldl_init (b : EnvMap) (k : String) (init : Option String) :
    b.foldl (fun acc kv => if kv.1 = k then some kv.2 else acc) init
      = (b.foldl (fun acc kv => if kv.1 = k then some kv.2 else acc) none).elim init some := by
  induction b generalizing init with
  | nil => simp
  | cons p rest ih =>
    simp only [List.foldl_cons]
    rw [ih (if p.1 = k then some p.2 else init), ih (if p.1 = k then some p.2 else none)]
    cases hv : rest.foldl (fun acc kv => if kv.1 = k then some kv.2 else acc) none with
    | some v => simp
    | none => by_cases h : p.1 = k <;> simp [h]

theorem envGet_append (a b : EnvMap) (k : String) :
    envGet (a ++ b) k = (envGet b k).elim (envGet a k) some := by
  unfold envGet
  rw [List.foldl_append]
  exact envGet_foldl_init b k _

theorem envGet_append_of_some {b : EnvMap} {k v : String} (a : EnvMap)
    (h : envGet b k = some v) : envGet (a ++ b) k = some v := by
  rw [envGet_append, h]
  rfl

theorem envGet_append_of_none {b : EnvMap} {k : String} (a : EnvMap)
    (h : envGet b k = none) : envGet (a ++ b) k = envGet a k := by
  rw [envGet_append, h]
  rfl

theorem foldl_processLine_eq (ls : List String) (acc : EnvMap) :
    ls.foldl processLine acc = acc ++ ls.filterMap lineAssign := by
  induction ls generalizing acc with
  | nil => simp
  | cons l rest ih =>
    simp only [List.foldl_cons, List.filterMap_cons]
    cases h : lineAssign l with
    | none => simp [processLine, h, ih]
    | some kv => simp [processLine, h, ih]

theorem parse_readable_eq (ls : List String) :
    parse_dotenv_file (.readable ls) = ls.filterMap lineAssign := by
  simpa using foldl_processLine_eq ls []

theorem envGet_eq_find_last (d : EnvMap) (k : String) :
    envGet d k = (d.reverse.find? (fun kv => kv.1 = k)).map (fun kv => kv.2) := by
  induction d with
  | nil => rfl
  | cons p rest ih =>
    have h1 : envGet (p :: rest) k
        = (envGet rest k).elim (if p.1 = k then some p.2 else none) some := by
      unfold envGet
      simp only [List.foldl_cons]
      exact envGet_foldl_init rest k _
    rw [h1, ih, List.reverse_cons, List.find?_append]
    cases hf : rest.reverse.find? (fun kv => kv.1 = k) with
    | some q => simp
    | none =>
      by_cases h : p.1 = k <;> simp [List.find?, h]

theorem envGet_parse_pathExists {st : FileState} {k v : String}
    (h : envGet (parse_dotenv_file st) k = some v) : st.pathExists = true := by
  cases st with
  | absent => simp [parse_dotenv_file, envGet] at h
  | failAtOpen => simp [parse_dotenv_file, envGet] at h
  | readable ls => rfl
  | failMidRead ls => rfl

theorem envGet_merge_top {fs : ProjectFiles} {k v : String}
    (h : envGet (parse_dotenv_file fs.rootEnvMci) k = some v) :
    envGet (find_and_merge_dotenv_files fs) k = some v := by
  have hex := envGet_parse_pathExists h
  unfold find_and_merge_dotenv_files
  simp only [hex, if_true, dictUpdate]
  exact envGet_append_of_some _ h

/-- C1: `get_env_with_dotenv` merges the four candidate files lowest-to-
highest (mci/.env, mci/.env.mci, .env, .env.mci), then the process
environment, then the caller overrides; hence a key set by the caller
overrides resolves to the override value, a key absent from the overrides
but set in the process environment resolves to the process value, and a key
absent from both resolves to the `<root>/.env.mci` value whenever that file
assigns it, regardless of the other candidate files. -/
theorem c1_resolution_precedence (fs : ProjectFiles) (processEnv : EnvMap) (k : String) :
    (∀ extra v, envGet extra k = some v →
        envGet (get_env_with_dotenv fs processEnv (some extra)) k = some v) ∧
    (∀ ae : Option EnvMap, (∀ e ∈ ae, envGet e k = none) →
        ∀ v, envGet processEnv k = some v →
        envGet (get_env_with_dotenv fs processEnv ae) k = some v) ∧
    (∀ ae : Option EnvMap, (∀ e ∈ ae, envGet e k = none) →
        envGet processEnv k = none →
        ∀ v, envGet (parse_dotenv_file fs.rootEnvMci) k = some v →
        envGet (get_env_with_dotenv fs processEnv ae) k = some v) := by
  refine ⟨?_, ?_, ?_⟩
  · intro extra v h
    have hne : extra.isEmpty = false := by
      cases extra with
      | nil => simp [envGet] at h
      | cons a l => rfl
    unfold get_env_with_dotenv
    simp only [hne, dictUpdate, Bool.false_eq_true, if_false]
    exact envGet_append_of_some _ h
  · intro ae hae v h
    unfold get_env_with_dotenv
    cases ae with
    | none => exact envGet_append_of_some _ h
    | some extra =>
      have hx : envGet extra k = none := hae extra rfl
      by_cases he : extra.isEmpty
      · simp only [he, if_true, dictUpdate]
        exact envGet_append_of_some _ h
      · simp only [he, Bool.false_eq_true, if_false, dictUpdate]
        rw [envGet_append_of_none _ hx]
        exact envGet_append_of_some _ h
  · intro ae hae hp v h
    have hfiles : envGet (find_and_merge_dotenv_files fs) k = some v := envGet_merge_top h
    have hm2 : envGet (dictUpdate (find_and_merge_dotenv_files fs) processEnv) k = some v := by
      unfold dictUpdate
      rw [envGet_append_of_none _ hp]
      exact hfiles
    unfold get_env_with_dotenv
    cases ae with
    | none => exact hm2
    | some extra =>
      have hx : envGet extra k = none := hae extra rfl
      by_cases he : extra.isEmpty
      · simp only [he, if_true]
        exact hm2
      · simp only [he, Bool.false_eq_true, if_false, dictUpdate]
        unfold dictUpdate at hm2
        rw [envGet_append_of_none _ hx]
        exact hm2

theorem c1_resolution_precedence_witness :
    envGet (get_env_with_dotenv
        ⟨.readable ["K=low"], .readable ["K=libmci"], .readable ["K=proj"], .readable ["K=top"]⟩
        [("K", "proc")] (some [("K", "cli")])) "K" = some "cli" ∧
    envGet (get_env_with_dotenv
        ⟨.readable ["K=low"], .readable ["K=libmci"], .readable ["K=proj"], .readable ["K=top"]⟩
        [("K", "proc")] none) "K" = some "proc" ∧
    envGet (get_env_with_dotenv
        ⟨.readable ["K=low"], .readable ["K=libmci"], .readable ["K=proj"], .readable ["K=top"]⟩
        [] none) "K" = some "top" :=
  ⟨(c1_resolution_precedence _ _ "K").1 [("K", "cli")] "cli" (by decide),
   (c1_resolution_precedence _ _ "K").2.1 none (by intro e he; cases he) "proc" (by decide),
   (c1_resolution_precedence _ _ "K").2.2 none (by intro e he; cases he) (by decide) "top" (by decide)⟩

/-- C5: when every non-comment, non-blank line of the file is a well-formed
KEY=VALUE assignment (after optional `export ` removal), the parsed mapping
assigns a value to a key exactly when some line assigns that key, and the
value is the one of the last assignment of that key in the file. -/
theorem c5_parse_last_assignment_wins (ls : List String)
    (_hwf : ∀ l ∈ ls, wellFormedLine l = true) (k : String) :
    (envGet (parse_dotenv_file (.readable ls)) k ≠ none ↔
        k ∈ (ls.filterMap lineAssign).map (fun kv => kv.1)) ∧
    envGet (parse_dotenv_file (.readable ls)) k
      = ((ls.filterMap lineAssign).reverse.find? (fun kv => kv.1 = k)).map (fun kv => kv.2) := by
  have hmain : envGet (parse_dotenv_file (.readable ls)) k
      = ((ls.filterMap lineAssign).reverse.find? (fun kv => kv.1 = k)).map (fun kv => kv.2) := by
    rw [parse_readable_eq, envGet_eq_find_last]
  refine ⟨?_, hmain⟩
  rw [hmain]
  rw [Ne, Option.map_eq_none', List.find?_eq_none]
  constructor
  · intro hnot
    push_neg at hnot
    obtain ⟨kv, hmem, hk⟩ := hnot
    rw [List.mem_reverse] at hmem
    simp only [decide_eq_true_eq] at hk
    exact List.mem_map.mpr ⟨kv, hmem, hk⟩
  · intro hmem hall
    obtain ⟨kv, hkv, hfst⟩ := List.mem_map.mp hmem
    exact absurd (by simp [hfst]) (hall kv (List.mem_reverse.mpr hkv))

theorem c5_parse_last_assignment_wins_witness :
    (envGet (parse_dotenv_file (.readable ["A=1", "# note", "A=2", "B=3", ""])) "A" ≠ none ↔
        "A" ∈ ((["A=1", "# note", "A=2", "B=3", ""].filterMap lineAssign)).map (fun kv => kv.1)) ∧
    envGet (parse_dotenv_file (.readable ["A=1", "# note", "A=2", "B=3", ""])) "A"
      = (((["A=1", "# note", "A=2", "B=3", ""].filterMap lineAssign)).reverse.find?
          (fun kv => kv.1 = "A")).map (fun kv => kv.2) :=
  c5_parse_last_assignment_wins ["A=1", "# note", "A=2", "B=3", ""] (by decide) "A"

/-- C6: a value of length at least two wrapped in one matching pair of
double or single quotes has exactly that outer pair removed, with no other
rewriting of the remaining characters; a short or mismatched-quote value is
returned unchanged.  On whole lines, a double-quoted and a single-quoted `v`
both parse to value `v`, while a mismatched pair (a double quote at the
front, a single quote at the back) keeps its value unstripped. -/
theorem c6_quote_stripping (v : String) :
    (2 ≤ v.length →
        ((v.data.head? = some dq ∧ v.data.getLast? = some dq) ∨
         (v.data.head? = some apos ∧ v.data.getLast? = some apos)) →
        stripQuotes v = String.mk ((v.data.drop 1).dropLast)) ∧
    (¬(v.data.head? = some dq ∧ v.data.getLast? = some dq) →
        ¬(v.data.head? = some apos ∧ v.data.getLast? = some apos) →
        stripQuotes v = v) ∧
    (v.length < 2 → stripQuotes v = v) ∧
    lineAssign "KEY=\"v\"" = some ("KEY", "v") ∧
    lineAssign ("KEY=" ++ String.singleton apos ++ "v" ++ String.singleton apos)
      = some ("KEY", "v") ∧
    lineAssign ("KEY=\"v" ++ String.singleton apos)
      = some ("KEY", "\"v" ++ String.singleton apos) := by
  refine ⟨?_, ?_, ?_, by decide, by decide, by decide⟩
  · intro hlen hq
    unfold stripQuotes
    rcases hq with ⟨h1, h2⟩ | ⟨h1, h2⟩
    · simp [hlen, h1, h2]
    · have hda : apos = dq ↔ False := by simp [apos, dq]
      simp [hlen, h1, h2, hda]
  · intro h1 h2
    by_cases hlen : 2 ≤ v.length
    · by_cases ha : v.data.head? = some dq <;> by_cases hb : v.data.getLast? = some dq <;>
        by_cases hc : v.data.head? = some apos <;> by_cases hd : v.data.getLast? = some apos <;>
        simp_all [stripQuotes]
    · simp [stripQuotes, hlen]
  · intro hlt
    have hlen : ¬ 2 ≤ v.length := by omega
    simp [stripQuotes, hlen]

theorem c6_quote_stripping_witness :
    stripQuotes "\"v\"" = String.mk (("\"v\"".data.drop 1).dropLast) ∧
    stripQuotes "ab" = "ab" ∧
    stripQuotes "x" = "x" :=
  ⟨(c6_quote_stripping "\"v\"").1 (by decide) (Or.inl (by decide)),
   (c6_quote_stripping "ab").2.1 (by decide) (by decide),
   (c6_quote_stripping "x").2.2.1 (by decide)⟩

/-- C7 counterexample: a read that fails (OSError or UnicodeDecodeError)
after the line `A=1` was already consumed returns the mapping `{A: 1}`,
not the empty mapping the claim requires for every failed read. -/
theorem c7_counterexample_partial_read :
    parse_dotenv_file (.failMidRead ["A=1"]) = [("A", "1")] ∧
    parse_dotenv_file (.failMidRead ["A=1"]) ≠ [] := by
  refine ⟨by decide, by decide⟩

/-- C7 amended: a missing path or a failure at open yields the empty
mapping and no exception; a read failing after some lines were consumed
yields, again without raising, exactly the assignments parsed from those
lines (possibly nonempty); resolution likewise never raises and yields the
empty mapping when every source is empty. -/
theorem c7_amended_silent_read_failures (ls : List String) :
    parse_dotenv_file .absent = [] ∧
    parse_dotenv_file .failAtOpen = [] ∧
    parse_dotenv_file (.failMidRead ls) = ls.filterMap lineAssign ∧
    get_env_with_dotenv ⟨.absent, .absent, .absent, .absent⟩ [] none = [] := by
  refine ⟨rfl, rfl, ?_, rfl⟩
  simpa using foldl_processLine_eq ls []

/-- C2: every `ValidationResult` returned by `validate_schema` has
`is_valid` true exactly when its error list is empty, and its warning list
is empty whenever `is_valid` is false. -/
theorem c2_validity_invariant (w : WorldState) (fp : String) (r : ValidationResult)
    (h : MCIValidator.validate_schema w fp = .ok r) :
    (r.is_valid = true ↔ r.errors = []) ∧ (r.is_valid = false → r.warnings = []) := by
  by_cases hp : (MCIConfig.validate_schema w.engine).1 = false
  · have hr : MCIValidator.validate_schema w fp
        = .ok ⟨[⟨(MCIConfig.validate_schema w.engine).2, none⟩], [], false⟩ := by
      unfold MCIValidator.validate_schema
      simp [hp]
    rw [hr] at h
    simp only [Except.ok.injEq] at h
    subst h
    simp
  · cases hload : MCIValidator.load_schema_data w.doc fp with
    | error msg =>
      have hr : MCIValidator.validate_schema w fp
          = .ok ⟨[⟨"Failed to load schema data: " ++ msg, none⟩], [], false⟩ := by
        unfold MCIValidator.validate_schema
        simp [hp, hload]
      rw [hr] at h
      simp only [Except.ok.injEq] at h
      subst h
      simp
    | ok sd =>
      cases hc1 : MCIValidator.check_toolset_files w.toolsetFileOnDisk fp sd with
      | error e =>
        have hr : MCIValidator.validate_schema w fp = .error e := by
          unfold MCIValidator.validate_schema
          simp [hp, hload, hc1]
        rw [hr] at h
        exact absurd h (by simp)
      | ok ws1 =>
        cases hc2 : MCIValidator.check_mcp_commands w.which sd with
        | error e =>
          have hr : MCIValidator.validate_schema w fp = .error e := by
            unfold MCIValidator.validate_schema
            simp [hp, hload, hc1, hc2]
          rw [hr] at h
          exact absurd h (by simp)
        | ok ws2 =>
          have hr : MCIValidator.validate_schema w fp = .ok ⟨[], ws1 ++ ws2, true⟩ := by
            unfold MCIValidator.validate_schema
            simp [hp, hload, hc1, hc2]
          rw [hr] at h
          simp only [Except.ok.injEq] at h
          subst h
          simp

theorem c2_validity_invariant_witness :
    ((ValidationResult.mk [⟨"engine says no", none⟩] [] false).is_valid = true ↔
        (ValidationResult.mk [⟨"engine says no", none⟩] [] false).errors = []) ∧
    ((ValidationResult.mk [⟨"engine says no", none⟩] [] false).is_valid = false →
        (ValidationResult.mk [⟨"engine says no", none⟩] [] false).warnings = []) :=
  c2_validity_invariant
    ⟨.clientError "engine says no", ⟨true, .ok .vnull, .ok .vnull⟩, fun _ => false, fun _ => false⟩
    "mci.json" (ValidationResult.mk [⟨"engine says no", none⟩] [] false) rfl

/-- C4: when the external engine signals failure (its domain error
`MCIClientError` with message `msg`), `validate_schema` returns a result
with exactly one `ValidationError` whose message is `msg` verbatim, an
empty warning list and `is_valid` false; the supplementary checks never
run (the result is a constant independent of the file system and PATH). -/
theorem c4_engine_failure_verbatim (w : WorldState) (fp msg : String)
    (h : w.engine = .clientError msg) :
    MCIValidator.validate_schema w fp =
      .ok { errors := [{ message := msg, location := none }]
          , warnings := [], is_valid := false } := by
  unfold MCIValidator.validate_schema MCIConfig.validate_schema
  rw [h]
  rfl

theorem c4_engine_failure_verbatim_witness :
    MCIValidator.validate_schema
      ⟨.clientError "Invalid schema: tools must be a list",
        ⟨true, .ok .vnull, .ok .vnull⟩, fun _ => true, fun _ => true⟩ "mci.json" =
      .ok { errors := [{ message := "Invalid schema: tools must be a list", location := none }]
          , warnings := [], is_valid := false } :=
  c4_engine_failure_verbatim _ "mci.json" "Invalid schema: tools must be a list" rfl

/-- C9: for an existing document whose extension is none of `.json`,
`.yaml`, `.yml`, once primary validation succeeds the supplementary reload
fails with the unsupported-format error, and `validate_schema` returns one
`ValidationError` wrapping that exception text, no warnings, `is_valid`
false — the supplementary checks are never reached. -/
theorem c9_unsupported_format (w : WorldState) (fp : String)
    (hvalid : (MCIConfig.validate_schema w.engine).1 = true)
    (hex : w.doc.docExists = true)
    (hj : pySuffix fp ≠ ".json") (hy : pySuffix fp ≠ ".yaml") (hm : pySuffix fp ≠ ".yml") :
    MCIValidator.validate_schema w fp =
      .ok { errors := [{ message := "Failed to load schema data: "
              ++ ("Unsupported file format: " ++ pySuffix fp), location := none }]
          , warnings := [], is_valid := false } := by
  have hload : MCIValidator.load_schema_data w.doc fp
      = .error ("Unsupported file format: " ++ pySuffix fp) := by
    unfold MCIValidator.load_schema_data
    simp [hex, hj, hy, hm]
  unfold MCIValidator.validate_schema
  rw [hload]
  simp [hvalid]

theorem c9_unsupported_format_witness :
    MCIValidator.validate_schema
      ⟨.success, ⟨true, .ok .vnull, .ok .vnull⟩, fun _ => true, fun _ => true⟩ "schema.txt" =
      .ok { errors := [{ message := "Failed to load schema data: "
              ++ ("Unsupported file format: " ++ pySuffix "schema.txt"), location := none }]
          , warnings := [], is_valid := false } :=
  c9_unsupported_format _ "schema.txt" rfl rfl (by decide) (by decide) (by decide)

theorem filterMap_ext {α β : Type} (f g : α → Option β) (l : List α) (h : ∀ a, f a = g a) :
    l.filterMap f = l.filterMap g := by
  induction l with
  | nil => rfl
  | cons a t ih => simp only [List.filterMap_cons, h a, ih]

/-- C8: for a validated document whose `toolsets` field is a list, each
string element `s` contributes exactly one warning naming `s` when neither
`<document_directory>/mci/s.mci.json` nor the `.mci.yaml` sibling exists,
zero warnings when at least one exists, and non-string (inline) elements
contribute zero warnings. -/
theorem c8_toolset_reference_warnings (fexists : String → Bool) (fp : String)
    (d : List (String × JVal)) (ts : List JVal)
    (hts : jGet d "toolsets" = some (.vlist ts)) :
    MCIValidator.check_toolset_files fexists fp (.vdict d) =
      .ok (ts.filterMap (fun t =>
        match t with
        | .vstr name =>
          if fexists ((parentDir fp ++ "/mci") ++ "/" ++ name ++ ".mci.json")
             || fexists ((parentDir fp ++ "/mci") ++ "/" ++ name ++ ".mci.yaml") then none
          else some { message := "Toolset file not found: " ++ name
                    , suggestion := some ("Create "
                        ++ ((parentDir fp ++ "/mci") ++ "/" ++ name ++ ".mci.json") ++ " or "
                        ++ ((parentDir fp ++ "/mci") ++ "/" ++ name ++ ".mci.yaml")
                        ++ ", or update the toolset reference") }
        | _ => none)) := by
  have hd : d.isEmpty = false := by
    cases d with
    | nil => simp [jGet] at hts
    | cons a l => rfl
  simp only [MCIValidator.check_toolset_files, truthy, hd, Bool.not_false, hts,
    Option.getD_some]
  by_cases hts0 : ts.isEmpty
  · have : ts = [] := by
      cases ts with
      | nil => rfl
      | cons a l => simp at hts0
    subst this
    simp
  · have hne : ts.isEmpty = false := by simp_all
    simp only [hne, Bool.not_false, Bool.true_eq_false, if_false]
    exact congrArg Except.ok (filterMap_ext _ _ ts (fun t => by cases t <;> rfl))

theorem c8_toolset_reference_warnings_witness :
    MCIValidator.check_toolset_files (fun _ => false) "mci.json"
      (.vdict [("toolsets", .vlist [.vstr "weather", .vint 3])]) =
      .ok ([JVal.vstr "weather", JVal.vint 3].filterMap (fun t =>
        match t with
        | .vstr name =>
          if (fun _ => false) ((parentDir "mci.json" ++ "/mci") ++ "/" ++ name ++ ".mci.json")
             || (fun _ => false) ((parentDir "mci.json" ++ "/mci") ++ "/" ++ name ++ ".mci.yaml") then none
          else some { message := "Toolset file not found: " ++ name
                    , suggestion := some ("Create "
                        ++ ((parentDir "mci.json" ++ "/mci") ++ "/" ++ name ++ ".mci.json") ++ " or "
                        ++ ((parentDir "mci.json" ++ "/mci") ++ "/" ++ name ++ ".mci.yaml")
                        ++ ", or update the toolset reference") }
        | _ => none)) :=
  c8_toolset_reference_warnings (fun _ => false) "mci.json"
    [("toolsets", .vlist [.vstr "weather", .vint 3])] [.vstr "weather", .vint 3] rfl

/-- C10: a server entry whose `command` field is present but falsy (the
empty string, but also any other falsy value) contributes zero warnings
and triggers no PATH lookup — the outcome is the same for every PATH
predicate — both for the entry in isolation and for a document declaring
that server. -/
theorem c10_falsy_command_no_warning (serverName : String) (cfg : List (String × JVal)) (c : JVal)
    (hcmd : jGet cfg "command" = some c) (hfalsy : truthy c = false) :
    (∀ which : String → Bool, mcpEntryWarnings which serverName (.vdict cfg) = .ok []) ∧
    (∀ which : String → Bool,
      MCIValidator.check_mcp_commands which
        (.vdict [("mcp_servers", .vdict [(serverName, .vdict cfg)])]) = .ok []) := by
  have hentry : ∀ which : String → Bool,
      mcpEntryWarnings which serverName (.vdict cfg) = .ok [] := by
    intro which
    simp only [mcpEntryWarnings, hcmd, hfalsy]
    simp
  refine ⟨hentry, fun which => ?_⟩
  simp only [MCIValidator.check_mcp_commands, truthy, jGet, List.foldl]
  simp [mcpFoldStep, hentry which]

theorem c10_falsy_command_no_warning_witness :
    (mcpEntryWarnings (fun _ => false) "srv" (.vdict [("command", .vstr "")]) = .ok []) ∧
    (MCIValidator.check_mcp_commands (fun _ => false)
      (.vdict [("mcp_servers", .vdict [("srv", .vdict [("command", .vstr "")])])]) = .ok []) :=
  ⟨(c10_falsy_command_no_warning "srv" [("command", .vstr "")] (.vstr "") rfl rfl).1 (fun _ => false),
   (c10_falsy_command_no_warning "srv" [("command", .vstr "")] (.vstr "") rfl rfl).2 (fun _ => false)⟩

theorem mcpEntryWarnings_ok_of_safe (which : String → Bool) (name : String) (cfgv : JVal)
    (h : commandSafe cfgv = true) :
    ∃ ws, mcpEntryWarnings which name cfgv = .ok ws := by
  cases cfgv with
  | vnull => exact ⟨[], rfl⟩
  | vbool b => exact ⟨[], rfl⟩
  | vint n => exact ⟨[], rfl⟩
  | vstr s => exact ⟨[], rfl⟩
  | vlist xs => exact ⟨[], rfl⟩
  | vdict cfg =>
    simp only [commandSafe] at h
    simp only [mcpEntryWarnings]
    cases hc : jGet cfg "command" with
    | none => exact ⟨[], rfl⟩
    | some c =>
      rw [hc] at h
      by_cases hb : truthy c = true
      · cases c with
        | vstr s =>
          by_cases hw : which s = true
          · exact ⟨[], by simp [hb, hw]⟩
          · exact ⟨[⟨"MCP server command not found in PATH: " ++ s ++ " (server: " ++ name ++ ")", some ("Install the command or ensure it" ++ String.singleton apos ++ "s in your PATH")⟩], by simp [hb, hw]⟩
        | vnull => simp [truthy] at hb
        | vbool b => simp [hb] at h
        | vint n => simp [hb] at h
        | vlist xs => simp [hb] at h
        | vdict d2 => simp [hb] at h
      · have hb2 : truthy c = false := by simp_all
        exact ⟨[], by simp [hb2]⟩

theorem mcp_fold_ok (which : String → Bool) (servers : List (String × JVal))
    (hsafe : ∀ kv ∈ servers, commandSafe kv.2 = true) :
    ∀ acc : List ValidationWarning,
      ∃ ws, servers.foldl (mcpFoldStep which) (.ok acc) = .ok ws := by
  induction servers with
  | nil => exact fun acc => ⟨acc, rfl⟩
  | cons kv rest ih =>
    intro acc
    obtain ⟨ws1, hw1⟩ := mcpEntryWarnings_ok_of_safe which kv.1 kv.2 (hsafe kv (by simp))
    have hstep : mcpFoldStep which (.ok acc) kv = .ok (acc ++ ws1) := by
      simp [mcpFoldStep, hw1]
    rw [List.foldl_cons, hstep]
    exact ih (fun x hx => hsafe x (by simp [hx])) (acc ++ ws1)

theorem check_toolset_ok_of_safe (fexists : String → Bool) (fp : String) (sd : JVal)
    (hsafe : docShapeSafe sd = true) :
    ∃ ws, MCIValidator.check_toolset_files fexists fp sd = .ok ws := by
  by_cases ht : truthy sd = false
  · exact ⟨[], by simp [MCIValidator.check_toolset_files, ht]⟩
  · cases sd with
    | vdict d =>
      simp only [MCIValidator.check_toolset_files]
      rw [if_neg ht]
      by_cases ht2 : truthy ((jGet d "toolsets").getD (.vlist [])) = false
      · exact ⟨[], by rw [if_pos ht2]⟩
      · rw [if_neg ht2]
        cases hls : (jGet d "toolsets").getD (.vlist []) <;> exact ⟨_, rfl⟩
    | vnull => exact absurd (by simpa [docShapeSafe] using hsafe) ht
    | vbool b => exact absurd (by simpa [docShapeSafe] using hsafe) ht
    | vint n => exact absurd (by simpa [docShapeSafe] using hsafe) ht
    | vstr s => exact absurd (by simpa [docShapeSafe] using hsafe) ht
    | vlist xs => exact absurd (by simpa [docShapeSafe] using hsafe) ht

theorem check_mcp_ok_of_safe (which : String → Bool) (sd : JVal)
    (hsafe : docShapeSafe sd = true) :
    ∃ ws, MCIValidator.check_mcp_commands which sd = .ok ws := by
  by_cases ht : truthy sd = false
  · exact ⟨[], by simp [MCIValidator.check_mcp_commands, ht]⟩
  · cases sd with
    | vdict d =>
      simp only [MCIValidator.check_mcp_commands]
      rw [if_neg ht]
      cases hm : (jGet d "mcp_servers").getD (.vdict []) with
      | vdict servers =>
        simp only [docShapeSafe, hm] at hsafe
        by_cases hms : truthy (.vdict servers) = false
        · exact ⟨[], by rw [if_pos hms]⟩
        · rw [if_neg hms]
          rw [List.all_eq_true] at hsafe
          exact mcp_fold_ok which servers (fun kv hk => by
            simpa using hsafe kv hk) []
      | vnull =>
        by_cases hms : truthy JVal.vnull = false
        · exact ⟨[], by rw [if_pos hms]⟩
        · exact ⟨[], by rw [if_neg hms]⟩
      | vbool b =>
        by_cases hms : truthy (JVal.vbool b) = false
        · exact ⟨[], by rw [if_pos hms]⟩
        · exact ⟨[], by rw [if_neg hms]⟩
      | vint n =>
        by_cases hms : truthy (JVal.vint n) = false
        · exact ⟨[], by rw [if_pos hms]⟩
        · exact ⟨[], by rw [if_neg hms]⟩
      | vstr s =>
        by_cases hms : truthy (JVal.vstr s) = false
        · exact ⟨[], by rw [if_pos hms]⟩
        · exact ⟨[], by rw [if_neg hms]⟩
      | vlist xs =>
        by_cases hms : truthy (JVal.vlist xs) = false
        · exact ⟨[], by rw [if_pos hms]⟩
        · exact ⟨[], by rw [if_neg hms]⟩
    | vnull => exact absurd (by simpa [docShapeSafe] using hsafe) ht
    | vbool b => exact absurd (by simpa [docShapeSafe] using hsafe) ht
    | vint n => exact absurd (by simpa [docShapeSafe] using hsafe) ht
    | vstr s => exact absurd (by simpa [docShapeSafe] using hsafe) ht
    | vlist xs => exact absurd (by simpa [docShapeSafe] using hsafe) ht

/-- C3 counterexample: with the engine accepting the document, a reload
that yields a mapping declaring a server whose `command` value is the
truthy number 1 makes the command-availability check apply the PATH lookup
to a non-string, raising `TypeError` out of `validate_schema` — an
exception escapes instead of a result with warnings being returned. -/
theorem c3_counterexample_typeerror :
    MCIValidator.validate_schema
      { engine := .success
      , doc := { docExists := true
               , jsonLoad := .ok (.vdict
                   [ ("schemaVersion", .vstr "1.0")
                   , ("tools", .vlist [])
                   , ("mcp_servers", .vdict [("srv", .vdict [("command", .vint 1)])]) ])
               , yamlLoad := .ok .vnull }
      , toolsetFileOnDisk := fun _ => false
      , which := fun _ => false } "mci.json" = .error .typeError := by
  rfl

/-- C3 amended: for every document on which primary validation succeeds and
whose reload yields a mapping (or falsy value) in which every mcp server
entries have a `command` field that is a string or falsy, the supplementary checks
add nothing to the error list and raise no exception — non-list `toolsets`
fields and non-mapping server entries degrade to zero warnings — and a
result carrying the accumulated warnings is always returned.  (A truthy
non-string `command` value instead makes the PATH lookup raise `TypeError`,
which propagates out of `validate_schema`.) -/
theorem c3_amended_checks_never_error (w : WorldState) (fp : String) (sd : JVal)
    (hvalid : (MCIConfig.validate_schema w.engine).1 = true)
    (hload : MCIValidator.load_schema_data w.doc fp = .ok sd)
    (hsafe : docShapeSafe sd = true) :
    ∃ ws1 ws2,
      MCIValidator.check_toolset_files w.toolsetFileOnDisk fp sd = .ok ws1 ∧
      MCIValidator.check_mcp_commands w.which sd = .ok ws2 ∧
      MCIValidator.validate_schema w fp =
        .ok { errors := [], warnings := ws1 ++ ws2, is_valid := true } := by
  obtain ⟨ws1, h1⟩ := check_toolset_ok_of_safe w.toolsetFileOnDisk fp sd hsafe
  obtain ⟨ws2, h2⟩ := check_mcp_ok_of_safe w.which sd hsafe
  refine ⟨ws1, ws2, h1, h2, ?_⟩
  unfold MCIValidator.validate_schema
  simp [hvalid, hload, h1, h2]

theorem c3_amended_checks_never_error_witness :
    ∃ ws1 ws2,
      MCIValidator.check_toolset_files (fun _ => false) "mci.json"
        (.vdict [("mcp_servers", .vdict [("srv",
          .vdict [("command", .vstr "definitely-not-a-real-binary-xyz")])])]) = .ok ws1 ∧
      MCIValidator.check_mcp_commands (fun _ => false)
        (.vdict [("mcp_servers", .vdict [("srv",
          .vdict [("command", .vstr "definitely-not-a-real-binary-xyz")])])]) = .ok ws2 ∧
      MCIValidator.validate_schema
        { engine := .success
        , doc := { docExists := true
                 , jsonLoad := .ok (.vdict [("mcp_servers", .vdict [("srv",
                     .vdict [("command", .vstr "definitely-not-a-real-binary-xyz")])])])
                 , yamlLoad := .ok .vnull }
        , toolsetFileOnDisk := fun _ => false
        , which := fun _ => false } "mci.json" =
        .ok { errors := [], warnings := ws1 ++ ws2, is_valid := true } :=
  c3_amended_checks_never_error
    { engine := .success
    , doc := { docExists := true
             , jsonLoad := .ok (.vdict [("mcp_servers", .vdict [("srv",
                 .vdict [("command", .vstr "definitely-not-a-real-binary-xyz")])])])
             , yamlLoad := .ok .vnull }
    , toolsetFileOnDisk := fun _ => false
    , which := fun _ => false } "mci.json"
    (.vdict [("mcp_servers", .vdict [("srv",
      .vdict [("command", .vstr "definitely-not-a-real-binary-xyz")])])])
    rfl rfl rfl
